import Mathlib

/-!
Shallow embedding of the tw-stock-futures update scripts
(`scripts_update_futures.py`, the canonical variant, and
`scripts/update_futures.py`, the static-table variant) together with
theorems settling the specification claims.

Modelling conventions:
* Python strings are Lean `String`s; cell lists are `List String`.
* Regex searches (`re.search`) are embedded as explicit leftmost scans
  over the character list, faithful to the concrete patterns used.
* The HTTP transport is modelled, as the spec's collaborator-interface
  section prescribes, as an oracle returning raw response text plus a
  success/failure indicator.
* Python dict-literal payloads are association lists in insertion order.
-/

/-- Numeric value of a list of decimal digit characters (`int` on digits). -/
def charsVal (ds : List Char) : Nat :=
  ds.foldl (fun a c => a * 10 + (c.toNat - 48)) 0

/-- The run `[\d,]*` following the first matched digit in `_to_int`. -/
def numRun (l : List Char) : List Char :=
  l.takeWhile (fun c => c.isDigit || c == ',')

/-- Attempt to match the regex `-?\d[\d,]*` anchored at the head of `l`. -/
def matchNumAt (l : List Char) : Option (List Char) :=
  match l with
  | [] => none
  | c :: rest =>
    if c = '-' then
      match rest with
      | [] => none
      | c2 :: rest2 => if c2.isDigit then some ('-' :: c2 :: numRun rest2) else none
    else if c.isDigit then some (c :: numRun rest) else none

/-- Embeds `re.search` for `-?\d[\d,]*`: leftmost match. -/
def searchNum : List Char → Option (List Char)
  | [] => none
  | c :: rest =>
    match matchNumAt (c :: rest) with
    | some m => some m
    | none => searchNum rest

/-- Embeds `int(match.replace(",", ""))`: strip commas, parse optional sign. -/
def intOfRun (cs : List Char) : Int :=
  match cs.filter (fun c => c != ',') with
  | '-' :: ds => - (charsVal ds : Int)
  | ds => (charsVal ds : Int)

/-- Embeds `_to_int` from `scripts_update_futures.py`: first integer in the text
(commas and a leading minus supported), `0` when none is found; non-breaking
spaces are first replaced by plain spaces. -/
def to_int (s : String) : Int :=
  match searchNum (s.data.map (fun c => if c = ' ' then ' ' else c)) with
  | some m => intOfRun m
  | none => 0

/-- Attempt to match `(\d{4})/(\d{2})/(\d{2})` anchored at the head,
returning the concatenation `YYYYMMDD` of the three groups. -/
def match4At (l : List Char) : Option String :=
  match l with
  | a :: b :: c :: d :: s1 :: e :: f :: s2 :: g :: h :: _ =>
    if a.isDigit && b.isDigit && c.isDigit && d.isDigit && s1 == '/' &&
       e.isDigit && f.isDigit && s2 == '/' && g.isDigit && h.isDigit then
      some (String.mk [a, b, c, d, e, f, g, h])
    else none
  | _ => none

/-- Embeds `re.search` for the Gregorian pattern: leftmost match. -/
def search4 : List Char → Option String
  | [] => none
  | c :: rest =>
    match match4At (c :: rest) with
    | some r => some r
    | none => search4 rest

/-- Attempt `(\d{2,3})/(\d{2})/(\d{2})` at the head with a 3-digit year
(the greedy branch tried first). -/
def matchRoc3At (l : List Char) : Option (Nat × List Char × List Char) :=
  match l with
  | a :: b :: c :: s1 :: e :: f :: s2 :: g :: h :: _ =>
    if a.isDigit && b.isDigit && c.isDigit && s1 == '/' &&
       e.isDigit && f.isDigit && s2 == '/' && g.isDigit && h.isDigit then
      some (charsVal [a, b, c], [e, f], [g, h])
    else none
  | _ => none

/-- Attempt `(\d{2,3})/(\d{2})/(\d{2})` at the head with a 2-digit year
(the backtracking branch). -/
def matchRoc2At (l : List Char) : Option (Nat × List Char × List Char) :=
  match l with
  | a :: b :: s1 :: e :: f :: s2 :: g :: h :: _ =>
    if a.isDigit && b.isDigit && s1 == '/' &&
       e.isDigit && f.isDigit && s2 == '/' && g.isDigit && h.isDigit then
      some (charsVal [a, b], [e, f], [g, h])
    else none
  | _ => none

/-- Embeds `re.search` for the ROC pattern: leftmost
match, greedy year width. -/
def searchRoc : List Char → Option (Nat × List Char × List Char)
  | [] => none
  | c :: rest =>
    match matchRoc3At (c :: rest) with
    | some r => some r
    | none =>
      match matchRoc2At (c :: rest) with
      | some r => some r
      | none => searchRoc rest

/-- Python's `str.strip()`: drop leading and trailing whitespace. -/
def pyStrip (s : String) : List Char :=
  ((s.data.dropWhile Char.isWhitespace).reverse.dropWhile Char.isWhitespace).reverse

/-- Embeds `_format_yyyymmdd` from `scripts_update_futures.py`; the fallback
`datetime.now().strftime("%Y%m%d")` is the caller-supplied `now`. -/
def format_yyyymmdd (s now : String) : String :=
  let l := pyStrip s
  match search4 l with
  | some ymd => ymd
  | none =>
    match searchRoc l with
    | some (roc, mm, dd) => toString (roc + 1911) ++ String.mk mm ++ String.mk dd
    | none => now

/-- Tests whether `pat` matches the leading characters of the second list. -/
def leadMatch : List Char → List Char → Bool
  | [], _ => true
  | _ :: _, [] => false
  | p :: ps, c :: cs => p == c && leadMatch ps cs

/-- Tests whether `pat` occurs as a contiguous sublist of `hay`. -/
def containsChars (pat : List Char) : List Char → Bool
  | [] => pat.isEmpty
  | c :: rest => leadMatch pat (c :: rest) || containsChars pat rest

/-- Python's `pat in hay` substring test. -/
def containsStr (hay pat : String) : Bool :=
  containsChars pat.data hay.data

/-- The five value columns of the aggregate row (all-contracts figures). -/
structure Vals where
  buy5 : Int
  buy10 : Int
  sell5 : Int
  sell10 : Int
  oi : Int
deriving DecidableEq

/-- Error message raised when no row carries the aggregate label. -/
def notFoundMsg : String :=
  "找不到「所有契約」那一列（可能是期交所頁面改版或該契約當日無資料）"

/-- Error message raised when the matched aggregate row is too short;
`toString row` stands for Python's list formatting of the cells. -/
def shortMsg (row : List String) : String :=
  "表格欄位不足(len=" ++ toString row.length ++ ")，抓到的欄位：" ++ toString row

/-- The row-scan of `parse_large_trader_html`: the first nonempty row one
of whose cells contains the aggregate label. -/
def findAllRow (rows : List (List String)) : Option (List String) :=
  rows.find? (fun cols => !cols.isEmpty && cols.any (fun c => containsStr c "所有契約"))

/-- The value-extraction part of `parse_large_trader_html`, over the parsed
document's rows (each row its list of cell texts); `ValueError` is `.error`. -/
def parseValues (rows : List (List String)) : Except String Vals :=
  match findAllRow rows with
  | none => .error notFoundMsg
  | some row =>
    if row.length < 10 then .error (shortMsg row)
    else .ok ⟨to_int (row.getD 1 ""), to_int (row.getD 3 ""),
              to_int (row.getD 5 ""), to_int (row.getD 7 ""), to_int (row.getD 9 "")⟩

/-- One buy/sell/net band of the normalized record. -/
structure Band where
  buy : Int
  sell : Int
  net : Int
deriving DecidableEq

/-- The canonical per-contract data record written to the document. -/
structure NormalizedData where
  net : Int
  top5 : Band
  top10 : Band
  oi : Int
deriving DecidableEq

/-- The record assembly in `fetch_one_contract`: nets are buy minus sell. -/
def buildData (v : Vals) : NormalizedData :=
  { net := v.buy5 - v.sell5
    top5 := ⟨v.buy5, v.sell5, v.buy5 - v.sell5⟩
    top10 := ⟨v.buy10, v.sell10, v.buy10 - v.sell10⟩
    oi := v.oi }

/-- A persisted item's `data` field: the tagged union of a normalized
record and an error record (`{"error": msg}`). -/
inductive ItemData where
  | norm (d : NormalizedData)
  | err (msg : String)
deriving DecidableEq

/-- One entry of the configured `TARGET_STOCKS` list. -/
structure Target1 where
  stock : String
  name : String
deriving DecidableEq

/-- The configured targets of `scripts_update_futures.py`. -/
def TARGET_STOCKS : List Target1 :=
  [⟨"2330", "台積電期貨"⟩, ⟨"2317", "鴻海期貨"⟩,
   ⟨"3231", "緯創期貨"⟩, ⟨"2382", "廣達期貨"⟩]

/-- One item of the persisted document. -/
structure Item where
  name : String
  stock : String
  code : Option String
  data : ItemData
deriving DecidableEq

/-- Error recorded when a ticker has no resolvable contract code. -/
def noCodeMsg : String := "找不到對應的期交所合約代碼（可能沒有上市個股期貨）"

/-- The per-target body of `main`'s loop: resolve the code, fetch, and
build the item; `fetch` abstracts `fetch_one_contract` (returning the
report date and data, or the caught exception's message), and the second
component is the report date used to update `date_out` on success. -/
def processTarget (codeMap : String → Option String)
    (fetch : String → Except String (String × NormalizedData))
    (t : Target1) : Item × Option String :=
  match codeMap t.stock with
  | none => (⟨t.name, t.stock, none, .err noCodeMsg⟩, none)
  | some c =>
    if c.isEmpty then (⟨t.name, t.stock, none, .err noCodeMsg⟩, none)
    else
      match fetch c with
      | .ok (d, nd) => (⟨t.name, t.stock, some c, .norm nd⟩, some d)
      | .error e => (⟨t.name, t.stock, some c, .err e⟩, none)

/-- Python's `a or d` for an optional string `a` (None and "" are falsy). -/
def pyOr (a : Option String) (d : String) : Option String :=
  match a with
  | none => some d
  | some s => if s.isEmpty then some d else some s

/-- Python's final `date_out or now`. -/
def pyOrNow (a : Option String) (now : String) : String :=
  match a with
  | none => now
  | some s => if s.isEmpty then now else s

/-- One iteration of `main`'s loop over targets, threading the growing
item list and the provisional `date_out`. -/
def stepTarget (codeMap : String → Option String)
    (fetch : String → Except String (String × NormalizedData))
    (acc : List Item × Option String) (t : Target1) : List Item × Option String :=
  let r := processTarget codeMap fetch t
  (acc.1 ++ [r.1], match r.2 with | some d => pyOr acc.2 d | none => acc.2)

/-- The loop of `main`: items in configured target order, and the document
date (`date_out or datetime.now().strftime(...)`). -/
def mainRun (targets : List Target1) (codeMap : String → Option String)
    (fetch : String → Except String (String × NormalizedData))
    (now : String) : List Item × String :=
  let r := targets.foldl (stepTarget codeMap fetch) ([], none)
  (r.1, pyOrNow r.2 now)

/-- One history entry (same shape as a daily document). -/
structure HistEntry where
  date : String
  items : List Item
deriving DecidableEq

/-- The history merge of `main`: drop entries carrying today's date,
insert today's snapshot at index 0, keep the first 7. -/
def mergeHistory (history : List HistEntry) (snap : HistEntry) : List HistEntry :=
  (snap :: history.filter (fun h => h.date != snap.date)).take 7

/-- The whole persisted document. -/
structure PersistedDoc where
  date : String
  items : List Item
  history : List HistEntry
deriving DecidableEq

/-- Assembly of the persisted document in `main`: run the loop, build
today's snapshot, merge it into the previously persisted history. -/
def buildDoc (targets : List Target1) (codeMap : String → Option String)
    (fetch : String → Except String (String × NormalizedData))
    (now : String) (oldHistory : List HistEntry) : PersistedDoc :=
  let r := mainRun targets codeMap fetch now
  ⟨r.2, r.1, mergeHistory oldHistory ⟨r.2, r.1⟩⟩

/-- A raw HTTP response: success indicator plus body text (the transport
interface of the spec's collaborator-interfaces section). -/
structure Response where
  ok : Bool
  text : String
deriving DecidableEq

/-- A POST payload: the dict literal as an insertion-ordered assoc list. -/
def Payload : Type := List (String × String)

/-- The `payload_variants` list of `_post_large_trader` for one code. -/
def payloadVariants (code : String) : List Payload :=
  [[("queryType", "1"), ("commodity_id", code)],
   [("queryType", "1"), ("commodityId", code)],
   [("queryType", "1"), ("commodity_id", code), ("commodityId", code),
    ("goDay", ""), ("dateaddcnt", "0"), ("queryDate", "")],
   [("queryType", "1"), ("commodity_id2", code), ("commodity_id", code)]]

/-- The acceptance test of `_post_large_trader`:
`r.ok and ("所有契約" in r.text or "契約" in r.text)`. -/
def acceptable (r : Response) : Bool :=
  r.ok && (containsStr r.text "所有契約" || containsStr r.text "契約")

/-- The variant loop of `_post_large_trader`: issue each variant's request
in order, return the first acceptable response's text; the second argument
carries the last response seen (the `r` local), returned when no variant
is acceptable (`""` if no request was ever made). -/
def fetchGo (post : Payload → Response) : List Payload → Option Response → String
  | [], none => ""
  | [], some r => r.text
  | p :: rest, _ =>
    let r := post p
    if acceptable r then r.text else fetchGo post rest (some r)

/-- Embeds `_post_large_trader` over the transport oracle `post`. -/
def post_large_trader (post : Payload → Response) (code : String) : String :=
  fetchGo post (payloadVariants code) none

/-- The requests actually issued by the variant loop, in order. -/
def fetchGoReqs (post : Payload → Response) : List Payload → List Payload
  | [] => []
  | p :: rest =>
    let r := post p
    if acceptable r then [p] else p :: fetchGoReqs post rest

/-- The requests issued by `_post_large_trader`. -/
def requestsMade (post : Payload → Response) (code : String) : List Payload :=
  fetchGoReqs post (payloadVariants code)

namespace Tbl

/-- One entry of the `TARGETS` list of `scripts/update_futures.py`. -/
structure Target2 where
  ticker : String
  name : String
  contract : String
deriving DecidableEq

/-- The configured targets of the static-table variant. -/
def TARGETS : List Target2 :=
  [⟨"2330", "台積電期貨", "台積電期貨"⟩, ⟨"2317", "鴻海期貨", "鴻海期貨"⟩,
   ⟨"3231", "緯創期貨", "緯創期貨"⟩, ⟨"2382", "廣達期貨", "廣達期貨"⟩]

/-- The `want` set: the configured contract names. -/
def wantList : List String := TARGETS.map Target2.contract

/-- Embeds `first_int` from `scripts/update_futures.py`: strip commas, then the
first match of `-?\d+`, else `0`. -/
def digRun (l : List Char) : List Char :=
  l.takeWhile (fun c => c.isDigit)

/-- Attempt to match `-?\d+` anchored at the head of `l`. -/
def matchIntAt (l : List Char) : Option (List Char) :=
  match l with
  | [] => none
  | c :: rest =>
    if c = '-' then
      match rest with
      | [] => none
      | c2 :: rest2 => if c2.isDigit then some ('-' :: c2 :: digRun rest2) else none
    else if c.isDigit then some (c :: digRun rest) else none

/-- Embeds `re.search` for `-?\d+`: leftmost match. -/
def searchInt : List Char → Option (List Char)
  | [] => none
  | c :: rest =>
    match matchIntAt (c :: rest) with
    | some m => some m
    | none => searchInt rest

/-- Embeds `first_int` itself. -/
def first_int (s : String) : Int :=
  match searchInt (s.data.filter (fun c => c != ',')) with
  | some m => intOfRun m
  | none => 0

/-- A parsed per-contract result of `parse_table`: data or error dict. -/
inductive TblData where
  | ok (top5 top10 : Band) (oi : Int)
  | err (msg : String)
deriving DecidableEq

/-- The heuristic contract-name cell: contains "期貨", avoids "所有" and
"契約", and is at most 20 characters; the scan takes the first such cell. -/
def findName (cols : List String) : Option String :=
  cols.find? (fun c =>
    containsStr c "期貨" && !containsStr c "所有" && !containsStr c "契約" &&
    decide (c.length ≤ 20))

/-- The aggregate-label test: some cell contains both "所有" and "契約". -/
def hasLabel (cols : List String) : Bool :=
  cols.any (fun x => containsStr x "所有" && containsStr x "契約")

/-- Error recorded for a matched-but-short aggregate row. -/
def shortMsg2 (n : Nat) : String := "表格欄位不足(len=" ++ toString n ++ ")"

/-- The fold state of `parse_table`'s row loop: the `current_contract`
local and the `found` dict (insertion-ordered assoc list). -/
structure ScanState where
  current : Option String
  found : List (String × TblData)
deriving DecidableEq

/-- One iteration of `parse_table`'s row loop. -/
def rowStep (st : ScanState) (cols : List String) : ScanState :=
  if cols.isEmpty then st
  else
    let cur := match findName cols with
      | some c => some c
      | none => st.current
    if hasLabel cols then
      match cur with
      | some c =>
        if wantList.contains c && (st.found.lookup c).isNone then
          if cols.length < 10 then
            ⟨cur, st.found ++ [(c, .err (shortMsg2 cols.length))]⟩
          else
            ⟨cur, st.found ++
              [(c, .ok ⟨first_int (cols.getD 1 ""), first_int (cols.getD 5 ""),
                        first_int (cols.getD 1 "") - first_int (cols.getD 5 "")⟩
                       ⟨first_int (cols.getD 3 ""), first_int (cols.getD 7 ""),
                        first_int (cols.getD 3 "") - first_int (cols.getD 7 "")⟩
                       (first_int (cols.getD 9 "")))]⟩
        else ⟨cur, st.found⟩
      | none => ⟨cur, st.found⟩
    else ⟨cur, st.found⟩

/-- Error recorded for a target never matched in the table. -/
def missMsg : String := "找不到該契約（可能名稱變動或當日無資料）"

/-- The row loop of `parse_table` over all rows of the (unique) table. -/
def scanRows (rows : List (List String)) : ScanState :=
  rows.foldl rowStep ⟨none, []⟩

/-- Embeds `parse_table` proper: scan the rows, then fill every unmatched target
with the miss error. -/
def parse_table (rows : List (List String)) : List (String × TblData) :=
  wantList.foldl
    (fun fd t => if (fd.lookup t).isNone then fd ++ [(t, .err missMsg)] else fd)
    (scanRows rows).found

end Tbl

/-- The aggregate row of the specification's end-to-end scenario. -/
def c3Row : List String :=
  ["所有契約", "12,000", "x", "8,000", "y", "5,000", "z", "3,000", "w", "100,000"]

lemma matchNumAt_none_of_no_digit {l : List Char}
    (h : ∀ c ∈ l, c.isDigit = false) : matchNumAt l = none := by
  cases l with
  | nil => rfl
  | cons c rest =>
    simp only [matchNumAt]
    by_cases hdash : c = '-'
    · subst hdash
      rw [if_pos rfl]
      cases rest with
      | nil => rfl
      | cons c2 rest2 =>
        have h2 := h c2 (by simp)
        show (if c2.isDigit = true then some ('-' :: c2 :: numRun rest2) else none) = none
        simp [h2]
    · have h1 := h c (by simp)
      simp [hdash, h1]

lemma searchNum_none_of_no_digit {l : List Char}
    (h : ∀ c ∈ l, c.isDigit = false) : searchNum l = none := by
  induction l with
  | nil => rfl
  | cons c rest ih =>
    simp only [searchNum]
    rw [matchNumAt_none_of_no_digit h]
    exact ih (fun c2 hc2 => h c2 (by simp [hc2]))

/-- C7: the value coercer `_to_int` maps `"1,234"` to `1234`, `"-56"` to
`-56` and `"N/A"` to `0`, extracting the first optional-sign digit-and-comma
run with separators stripped, and returns `0` for every string without a
digit (it is a total function: it never raises). -/
theorem to_int_c7 :
    to_int "1,234" = 1234 ∧ to_int "-56" = -56 ∧ to_int "N/A" = 0 ∧
    ∀ s : String, (∀ c ∈ s.data, c.isDigit = false) → to_int s = 0 := by
  refine ⟨by decide, by decide, by decide, ?_⟩
  intro s hs
  unfold to_int
  rw [searchNum_none_of_no_digit]
  intro c hc
  simp only [List.mem_map] at hc
  obtain ⟨c0, hc0, hmap⟩ := hc
  by_cases hnb : c0 = ' '
  · subst hnb
    simp at hmap
    subst hmap
    decide
  · have := hs c0 hc0
    rw [if_neg hnb] at hmap
    subst hmap
    exact this

/-- Witness for C7's universally quantified conjunct at `"xyz"`. -/
theorem to_int_c7_witness : to_int "xyz" = 0 :=
  to_int_c7.2.2.2 "xyz" (by decide)

/-- C6: the date normalizer maps `"2024/01/09"` to `"20240109"` and the
ROC date `"113/01/09"` to `"20240109"` (113 + 1911 = 2024); the ROC
pattern would also match inside `"2024/01/09"` (as year 024), so the
Gregorian pattern is tried first; when neither pattern matches, the
caller's `now` string is returned unchanged. -/
theorem format_yyyymmdd_c6 :
    (∀ now, format_yyyymmdd "2024/01/09" now = "20240109") ∧
    (∀ now, format_yyyymmdd "113/01/09" now = "20240109") ∧
    searchRoc (pyStrip "2024/01/09") = some (24, ['0', '1'], ['0', '9']) ∧
    ∀ s now, search4 (pyStrip s) = none → searchRoc (pyStrip s) = none →
      format_yyyymmdd s now = now := by
  refine ⟨?_, ?_, by decide, ?_⟩
  · intro now
    simp only [format_yyyymmdd]
    rw [show search4 (pyStrip "2024/01/09") = some "20240109" from by decide]
  · intro now
    simp only [format_yyyymmdd]
    rw [show search4 (pyStrip "113/01/09") = none from by decide,
        show searchRoc (pyStrip "113/01/09") = some (113, ['0', '1'], ['0', '9']) from by decide]
    rfl
  · intro s now h4 hroc
    simp only [format_yyyymmdd]
    rw [h4, hroc]

/-- Witness for C6's universally quantified conjunct at `"no date here"`. -/
theorem format_yyyymmdd_c6_witness :
    format_yyyymmdd "no date here" "20991231" = "20991231" :=
  format_yyyymmdd_c6.2.2.2 "no date here" "20991231" (by decide) (by decide)

/-- C8: for every coerced value tuple, the snapshot's net fields equal
buy minus sell in both bands, and are negative whenever sell exceeds buy. -/
theorem buildData_c8 : ∀ v : Vals,
    (buildData v).top5.net = v.buy5 - v.sell5 ∧
    (buildData v).top10.net = v.buy10 - v.sell10 ∧
    (v.sell5 > v.buy5 → (buildData v).top5.net < 0) ∧
    (v.sell10 > v.buy10 → (buildData v).top10.net < 0) := by
  intro v
  refine ⟨rfl, rfl, ?_, ?_⟩ <;> intro h <;> simp only [buildData] <;> omega

/-- Witness for C8's conditional conjuncts at a concrete tuple with
sell exceeding buy in both bands. -/
theorem buildData_c8_witness :
    (buildData ⟨1, 1, 2, 2, 0⟩).top5.net < 0 ∧
    (buildData ⟨1, 1, 2, 2, 0⟩).top10.net < 0 :=
  ⟨(buildData_c8 ⟨1, 1, 2, 2, 0⟩).2.2.1 (by decide),
   (buildData_c8 ⟨1, 1, 2, 2, 0⟩).2.2.2 (by decide)⟩

/-- C3: on a document whose aggregate row is the fixed 10-cell list, the
parser reads columns 1, 3, 5, 7, 9 as buy-top5, buy-top10, sell-top5,
sell-top10 and open interest, and the snapshot builder produces
`{top5:{12000,5000,7000}, top10:{8000,3000,5000}, oi:100000}`. -/
theorem parse_c3 :
    parseValues [c3Row] = .ok ⟨12000, 8000, 5000, 3000, 100000⟩ ∧
    buildData ⟨12000, 8000, 5000, 3000, 100000⟩ =
      ⟨7000, ⟨12000, 5000, 7000⟩, ⟨8000, 3000, 5000⟩, 100000⟩ := by
  constructor
  · unfold parseValues
    rw [show findAllRow [c3Row] = some c3Row from by decide]
    show (if c3Row.length < 10 then Except.error (shortMsg c3Row)
      else Except.ok ⟨to_int (c3Row.getD 1 ""), to_int (c3Row.getD 3 ""),
        to_int (c3Row.getD 5 ""), to_int (c3Row.getD 7 ""), to_int (c3Row.getD 9 "")⟩) =
      Except.ok (⟨12000, 8000, 5000, 3000, 100000⟩ : Vals)
    rw [if_neg (by decide)]
    exact congrArg Except.ok (by decide)
  · decide

lemma fetchGoReqs_take (post : Payload → Response) :
    ∀ ps : List Payload, ∃ k, k ≤ ps.length ∧ fetchGoReqs post ps = ps.take k := by
  intro ps
  induction ps with
  | nil => exact ⟨0, Nat.le_refl 0, rfl⟩
  | cons p rest ih =>
    by_cases h : acceptable (post p) = true
    · exact ⟨1, by simp, by simp [fetchGoReqs, h]⟩
    · obtain ⟨k, hk, he⟩ := ih
      refine ⟨k + 1, by simpa using hk, ?_⟩
      simp only [fetchGoReqs, List.take_succ_cons]
      simp [h, he]

lemma fetchGo_first (post : Payload → Response) :
    ∀ (ps : List Payload) (r0 : Option Response) (i : Nat) (hi : i < ps.length),
      acceptable (post (ps.get ⟨i, hi⟩)) = true →
      (∀ j (hj : j < i), acceptable (post (ps.get ⟨j, Nat.lt_trans hj hi⟩)) = false) →
      fetchGo post ps r0 = (post (ps.get ⟨i, hi⟩)).text ∧
      fetchGoReqs post ps = ps.take (i + 1) := by
  intro ps
  induction ps with
  | nil => intro r0 i hi; exact absurd hi (Nat.not_lt_zero i)
  | cons p rest ih =>
    intro r0 i hi hacc hbef
    cases i with
    | zero =>
      refine ⟨?_, ?_⟩
      · simp only [fetchGo]
        simp only [List.get] at hacc
        simp [hacc]
      · simp only [fetchGoReqs]
        simp only [List.get] at hacc
        simp [hacc]
    | succ i =>
      have h0 : acceptable (post p) = false := hbef 0 (Nat.succ_pos i)
      have step := ih (some (post p)) i (Nat.lt_of_succ_lt_succ hi) hacc
        (fun j hj => hbef (j + 1) (Nat.succ_lt_succ hj))
      refine ⟨?_, ?_⟩
      · simp only [fetchGo]
        simp [h0]
        exact step.1
      · simp only [fetchGoReqs, List.take_succ_cons]
        simp [h0]
        exact step.2

lemma fetchGo_none (post : Payload → Response) :
    ∀ (qs : List Payload) (p : Payload) (r0 : Option Response),
      (∀ q ∈ qs ++ [p], acceptable (post q) = false) →
      fetchGo post (qs ++ [p]) r0 = (post p).text ∧
      fetchGoReqs post (qs ++ [p]) = qs ++ [p] := by
  intro qs
  induction qs with
  | nil =>
    intro p r0 h
    have hp := h p (by simp)
    exact ⟨by simp [fetchGo, hp], by simp [fetchGoReqs, hp]⟩
  | cons q qs ih =>
    intro p r0 h
    have hq : acceptable (post q) = false := h q (by simp)
    obtain ⟨h1, h2⟩ := ih p (some (post q))
      (fun x hx => h x (by simp only [List.cons_append, List.mem_cons]; exact Or.inr hx))
    refine ⟨?_, ?_⟩
    · simp only [List.cons_append, fetchGo]
      simp [hq]
      exact h1
    · simp only [List.cons_append, fetchGoReqs]
      simp [hq, h2]

/-- C4: for every transport oracle and contract code, the report fetcher
issues the fixed parameter-shape variants one at a time, in order (the
requests issued are always an order-preserving prefix of the variant
list, so at most one request per variant); it returns the text of the
first response that passes the marker test, having issued exactly the
variants up to and including that one; and when no variant's response
passes, it returns the last (4th) variant's raw response text after
issuing all four.  It is a total function of the oracle: no exception
crosses this boundary. -/
theorem post_large_trader_c4 (post : Payload → Response) (code : String) :
    (∃ k, k ≤ (payloadVariants code).length ∧
      requestsMade post code = (payloadVariants code).take k) ∧
    (∀ i (hi : i < (payloadVariants code).length),
      acceptable (post ((payloadVariants code).get ⟨i, hi⟩)) = true →
      (∀ j (hj : j < i),
        acceptable (post ((payloadVariants code).get ⟨j, Nat.lt_trans hj hi⟩)) = false) →
      post_large_trader post code = (post ((payloadVariants code).get ⟨i, hi⟩)).text ∧
      requestsMade post code = (payloadVariants code).take (i + 1)) ∧
    ((∀ p ∈ payloadVariants code, acceptable (post p) = false) →
      post_large_trader post code =
        (post ((payloadVariants code).get ⟨3, by simp [payloadVariants]⟩)).text ∧
      requestsMade post code = payloadVariants code) := by
  refine ⟨fetchGoReqs_take post (payloadVariants code), ?_, ?_⟩
  · intro i hi hacc hbef
    exact fetchGo_first post (payloadVariants code) none i hi hacc hbef
  · intro hall
    have hsplit : payloadVariants code =
        (payloadVariants code).take 3 ++
          [(payloadVariants code).get ⟨3, by simp [payloadVariants]⟩] := rfl
    rw [hsplit] at hall
    have hc := fetchGo_none post ((payloadVariants code).take 3)
      ((payloadVariants code).get ⟨3, by simp [payloadVariants]⟩) none hall
    exact ⟨hc.1, hc.2.trans hsplit.symm⟩

/-- Witness for C4 at two concrete oracles: one whose first response is
acceptable, one none of whose responses are. -/
theorem post_large_trader_c4_witness :
    post_large_trader (fun _ => ⟨true, "所有契約"⟩) "CDF" = "所有契約" ∧
    post_large_trader (fun _ => ⟨false, "nope"⟩) "CDF" = "nope" :=
  ⟨((post_large_trader_c4 (fun _ => ⟨true, "所有契約"⟩) "CDF").2.1 0 (by decide)
      (by decide) (fun j hj => absurd hj (Nat.not_lt_zero j))).1,
   ((post_large_trader_c4 (fun _ => ⟨false, "nope"⟩) "CDF").2.2
      (fun p hp => by decide)).1⟩

lemma foldl_stepTarget_fst (codeMap : String → Option String)
    (fetch : String → Except String (String × NormalizedData)) :
    ∀ (ts : List Target1) (acc : List Item × Option String),
      (ts.foldl (stepTarget codeMap fetch) acc).1 =
        acc.1 ++ ts.map (fun t => (processTarget codeMap fetch t).1) := by
  intro ts
  induction ts with
  | nil => intro acc; simp
  | cons t ts ih =>
    intro acc
    simp only [List.foldl, List.map]
    rw [ih]
    simp [stepTarget]

lemma mainRun_items (targets : List Target1) (codeMap : String → Option String)
    (fetch : String → Except String (String × NormalizedData)) (now : String) :
    (mainRun targets codeMap fetch now).1 =
      targets.map (fun t => (processTarget codeMap fetch t).1) := by
  simpa using foldl_stepTarget_fst codeMap fetch targets ([], none)

lemma foldl_stepTarget_date_none (codeMap : String → Option String)
    (fetch : String → Except String (String × NormalizedData)) :
    ∀ (ts : List Target1) (acc : List Item × Option String),
      (∀ t ∈ ts, (processTarget codeMap fetch t).2 = none) →
      (ts.foldl (stepTarget codeMap fetch) acc).2 = acc.2 := by
  intro ts
  induction ts with
  | nil => intro acc _; rfl
  | cons t ts ih =>
    intro acc hall
    simp only [List.foldl]
    rw [ih _ (fun x hx => hall x (by simp [hx]))]
    simp [stepTarget, hall t (by simp)]

lemma foldl_stepTarget_date_keep (codeMap : String → Option String)
    (fetch : String → Except String (String × NormalizedData)) :
    ∀ (ts : List Target1) (acc : List Item × Option String) (d : String),
      acc.2 = some d → d.isEmpty = false →
      (ts.foldl (stepTarget codeMap fetch) acc).2 = some d := by
  intro ts
  induction ts with
  | nil => intro acc d h _; exact h
  | cons t ts ih =>
    intro acc d h hd
    simp only [List.foldl]
    refine ih _ d ?_ hd
    cases hpt : (processTarget codeMap fetch t).2 with
    | none => simp [stepTarget, hpt, h]
    | some d2 => simp [stepTarget, hpt, h, pyOr, hd]

/-- C10: the persisted document's top-level date.  If some target's
fetch-and-parse succeeds, the date is the report date of the first such
target (its predecessors all failing to produce one); only when every
target yields no parsed date does the date fall back to the run's
current local date `now`. -/
theorem doc_date_c10 :
    (∀ (targets : List Target1) (codeMap : String → Option String)
       (fetch : String → Except String (String × NormalizedData))
       (now : String) (hist : List HistEntry),
      (∀ t ∈ targets, (processTarget codeMap fetch t).2 = none) →
      (buildDoc targets codeMap fetch now hist).date = now) ∧
    (∀ (pre post : List Target1) (t : Target1) (codeMap : String → Option String)
       (fetch : String → Except String (String × NormalizedData))
       (now d : String) (hist : List HistEntry),
      (∀ x ∈ pre, (processTarget codeMap fetch x).2 = none) →
      (processTarget codeMap fetch t).2 = some d → d.isEmpty = false →
      (buildDoc (pre ++ t :: post) codeMap fetch now hist).date = d) := by
  constructor
  · intro targets codeMap fetch now hist hall
    show pyOrNow (targets.foldl (stepTarget codeMap fetch) ([], none)).2 now = now
    rw [foldl_stepTarget_date_none codeMap fetch targets ([], none) hall]
    rfl
  · intro pre post t codeMap fetch now d hist hpre hpt hd
    show pyOrNow ((pre ++ t :: post).foldl (stepTarget codeMap fetch) ([], none)).2 now = d
    rw [List.foldl_append]
    have hpredate := foldl_stepTarget_date_none codeMap fetch pre ([], none) hpre
    have hstep : (stepTarget codeMap fetch
        (pre.foldl (stepTarget codeMap fetch) ([], none)) t).2 = some d := by
      simp [stepTarget, hpt, hpredate, pyOr]
    rw [show (t :: post).foldl (stepTarget codeMap fetch)
          (pre.foldl (stepTarget codeMap fetch) ([], none)) =
        post.foldl (stepTarget codeMap fetch)
          (stepTarget codeMap fetch
            (pre.foldl (stepTarget codeMap fetch) ([], none)) t) from rfl]
    rw [foldl_stepTarget_date_keep codeMap fetch post _ d hstep hd]
    simp [pyOrNow, hd]

/-- Witness for C10 at a concrete run: first target fails, second
succeeds with report date 20240109, document date is 20240109; and a
run where every target fails dated by `now`. -/
theorem doc_date_c10_witness :
    (buildDoc TARGET_STOCKS (fun _ => some "CDF")
      (fun _ => .error "boom") "20991231" []).date = "20991231" ∧
    (buildDoc ([⟨"2330", "台積電期貨"⟩] ++ ⟨"2317", "鴻海期貨"⟩ :: [])
      (fun s => if s = "2330" then none else some "DHF")
      (fun _ => .ok ("20240109", ⟨0, ⟨0, 0, 0⟩, ⟨0, 0, 0⟩, 0⟩))
      "20991231" []).date = "20240109" :=
  ⟨doc_date_c10.1 TARGET_STOCKS (fun _ => some "CDF") (fun _ => .error "boom")
      "20991231" [] (by decide),
   doc_date_c10.2 [⟨"2330", "台積電期貨"⟩] [] ⟨"2317", "鴻海期貨"⟩
      (fun s => if s = "2330" then none else some "DHF")
      (fun _ => .ok ("20240109", ⟨0, ⟨0, 0, 0⟩, ⟨0, 0, 0⟩, 0⟩))
      "20991231" "20240109" [] (by decide) (by decide) (by decide)⟩

/-- C2: every run's document has exactly one item per configured target,
in configured order, each item produced from its own target alone (so a
failure of one target's fetch leaves every other item unchanged); in the
concrete 4-target scenario where exactly target #2's report fetch fails,
the document has 4 items, item #2 an error record and the others
normalized records. -/
theorem items_per_target_c2 :
    (∀ (codeMap : String → Option String)
       (fetch : String → Except String (String × NormalizedData))
       (now : String) (hist : List HistEntry),
      (buildDoc TARGET_STOCKS codeMap fetch now hist).items =
        TARGET_STOCKS.map (fun t => (processTarget codeMap fetch t).1) ∧
      (buildDoc TARGET_STOCKS codeMap fetch now hist).items.length =
        TARGET_STOCKS.length) ∧
    (buildDoc TARGET_STOCKS
      (fun s => if s = "2330" then some "CDF" else if s = "2317" then some "DHF"
        else if s = "3231" then some "DQF" else some "NLF")
      (fun c => if c = "DHF" then .error "抓不到期交所回應（空白）"
        else .ok ("20240109", ⟨1, ⟨2, 1, 1⟩, ⟨4, 3, 1⟩, 5⟩))
      "20240109" []).items =
      [⟨"台積電期貨", "2330", some "CDF", .norm ⟨1, ⟨2, 1, 1⟩, ⟨4, 3, 1⟩, 5⟩⟩,
       ⟨"鴻海期貨", "2317", some "DHF", .err "抓不到期交所回應（空白）"⟩,
       ⟨"緯創期貨", "3231", some "DQF", .norm ⟨1, ⟨2, 1, 1⟩, ⟨4, 3, 1⟩, 5⟩⟩,
       ⟨"廣達期貨", "2382", some "NLF", .norm ⟨1, ⟨2, 1, 1⟩, ⟨4, 3, 1⟩, 5⟩⟩] := by
  constructor
  · intro codeMap fetch now hist
    have h := mainRun_items TARGET_STOCKS codeMap fetch now
    refine ⟨h, ?_⟩
    rw [show (buildDoc TARGET_STOCKS codeMap fetch now hist).items =
      (mainRun TARGET_STOCKS codeMap fetch now).1 from rfl, h, List.length_map]
  · decide

lemma leadMatch_self_append : ∀ (xs ys : List Char), leadMatch xs (xs ++ ys) = true := by
  intro xs ys
  induction xs with
  | nil => rfl
  | cons x xs ih => simp [leadMatch, ih]

lemma containsChars_append (pre mid post : List Char) :
    containsChars mid (pre ++ (mid ++ post)) = true := by
  induction pre with
  | nil =>
    cases mid with
    | nil => cases post with
      | nil => rfl
      | cons p ps =>
        simp only [containsChars, Bool.or_eq_true]
        exact Or.inl rfl
    | cons m ms =>
      simp only [containsChars, Bool.or_eq_true]
      exact Or.inl (leadMatch_self_append (m :: ms) post)
  | cons p ps ih => simp [containsChars, ih]

/-- C5: per-contract parse failures.  If no cell of any row contains the
aggregate label, parsing yields exactly the label-not-found error; if the
matched aggregate row has fewer than 10 cells, parsing yields the
short-row error, whose text contains the actual column count; in `main`,
a target whose fetch/parse raises message `m` gets an item recording
exactly `.err m`, and the run still emits one item per target. -/
theorem parse_failure_c5 :
    (∀ rows : List (List String),
      (∀ row ∈ rows, ∀ c ∈ row, containsStr c "所有契約" = false) →
      parseValues rows = .error notFoundMsg) ∧
    (∀ (rows : List (List String)) (row : List String),
      findAllRow rows = some row → row.length < 10 →
      parseValues rows = .error (shortMsg row) ∧
      containsChars (toString row.length).data (shortMsg row).data = true) ∧
    (∀ (codeMap : String → Option String)
       (fetch : String → Except String (String × NormalizedData))
       (t : Target1) (c m : String),
      codeMap t.stock = some c → c.isEmpty = false → fetch c = .error m →
      (processTarget codeMap fetch t).1 = (⟨t.name, t.stock, some c, .err m⟩ : Item)) ∧
    (∀ (targets : List Target1) (codeMap : String → Option String)
       (fetch : String → Except String (String × NormalizedData))
       (now : String) (hist : List HistEntry),
      (buildDoc targets codeMap fetch now hist).items.length = targets.length) := by
  refine ⟨?_, ?_, ?_, ?_⟩
  · intro rows h
    unfold parseValues
    rw [show findAllRow rows = none from ?_]
    · apply List.find?_eq_none.mpr
      intro row hrow hpred
      rw [Bool.and_eq_true, List.any_eq_true] at hpred
      obtain ⟨-, c, hc, hcc⟩ := hpred
      rw [h row hrow c hc] at hcc
      cases hcc
  · intro rows row hfind hlen
    constructor
    · unfold parseValues
      rw [hfind]
      show (if row.length < 10 then Except.error (shortMsg row)
        else Except.ok (⟨to_int (row.getD 1 ""), to_int (row.getD 3 ""),
          to_int (row.getD 5 ""), to_int (row.getD 7 ""), to_int (row.getD 9 "")⟩ : Vals)) =
        Except.error (shortMsg row)
      rw [if_pos hlen]
    · show containsChars (toString row.length).data
        ("表格欄位不足(len=" ++ toString row.length ++ ")，抓到的欄位：" ++ toString row).data = true
      simp only [String.data_append, List.append_assoc]
      exact containsChars_append _ _ _
  · intro codeMap fetch t c m hcode hce hfetch
    simp [processTarget, hcode, hce, hfetch]
  · intro targets codeMap fetch now hist
    rw [show (buildDoc targets codeMap fetch now hist).items =
      (mainRun targets codeMap fetch now).1 from rfl,
      mainRun_items, List.length_map]

/-- Witness for C5: a document with no aggregate row, a document whose
aggregate row has only 2 cells, and a target whose fetch raises. -/
theorem parse_failure_c5_witness :
    parseValues [["x"]] = .error notFoundMsg ∧
    parseValues [["所有契約", "1"]] = .error (shortMsg ["所有契約", "1"]) ∧
    (processTarget (fun _ => some "CDF") (fun _ => .error "boom")
      ⟨"2330", "台積電期貨"⟩).1 = ⟨"台積電期貨", "2330", some "CDF", .err "boom"⟩ :=
  ⟨parse_failure_c5.1 [["x"]] (by decide),
   (parse_failure_c5.2.1 [["所有契約", "1"]] ["所有契約", "1"] (by decide) (by decide)).1,
   parse_failure_c5.2.2.1 (fun _ => some "CDF") (fun _ => .error "boom")
     ⟨"2330", "台積電期貨"⟩ "CDF" "boom" rfl rfl rfl⟩

lemma filter_ne_eq_self {h : List HistEntry} {s : String}
    (hall : ∀ e ∈ h, e.date ≠ s) : h.filter (fun e => e.date != s) = h := by
  apply List.filter_eq_self.mpr
  intro a ha
  simpa [bne_iff_ne] using hall a ha

lemma mergeHistory_fresh {h : List HistEntry} {s : HistEntry}
    (hall : ∀ e ∈ h, e.date ≠ s.date) : mergeHistory h s = (s :: h).take 7 := by
  unfold mergeHistory
  rw [filter_ne_eq_self hall]

lemma filter_ne_length_of_mem {h : List HistEntry} {s : String}
    (hnd : (h.map HistEntry.date).Nodup) (hmem : s ∈ h.map HistEntry.date) :
    (h.filter (fun e => e.date != s)).length = h.length - 1 := by
  induction h with
  | nil => cases hmem
  | cons e rest ih =>
    rw [List.map_cons, List.nodup_cons] at hnd
    rw [List.map_cons, List.mem_cons] at hmem
    by_cases hes : e.date = s
    · have hrest : ∀ x ∈ rest, x.date ≠ s := by
        intro x hx heq
        exact hnd.1 (by rw [hes, ← heq]; exact List.mem_map_of_mem HistEntry.date hx)
      have hb : (e.date != s) = false := by simp [hes]
      simp only [List.filter_cons, hb, Bool.false_eq_true, if_false]
      rw [filter_ne_eq_self hrest]
      simp
    · have hmem2 : s ∈ rest.map HistEntry.date := by
        rcases hmem with h1 | h2
        · exact absurd h1.symm hes
        · exact h2
      have hpos : 1 ≤ rest.length := by
        rcases rest with _ | ⟨x, xs⟩
        · simp at hmem2
        · simp
      have hb : (e.date != s) = true := by simp [bne_iff_ne, hes]
      simp only [List.filter_cons, hb, if_true]
      rw [List.length_cons, ih hnd.2 hmem2]
      simp only [List.length_cons]
      omega

/-- C1: the history merge.  (1) Its definition: drop the entries dated
like the snapshot, put the snapshot first, keep the first 7.  (2) The
result never exceeds 7 entries.  (3) The result holds at most one entry
dated like the snapshot.  (4) Date-uniqueness of the history is
preserved by merging.  (5) Re-merging a snapshot whose date is already
present leaves the length unchanged.  (6) Sequentially merging 8
snapshots with pairwise distinct dates from an empty history yields
exactly the 7 most recent, newest first, the oldest evicted. -/
theorem mergeHistory_c1 :
    (∀ (h : List HistEntry) (s : HistEntry),
      mergeHistory h s = (s :: h.filter (fun e => e.date != s.date)).take 7) ∧
    (∀ (h : List HistEntry) (s : HistEntry), (mergeHistory h s).length ≤ 7) ∧
    (∀ (h : List HistEntry) (s : HistEntry),
      ((mergeHistory h s).filter (fun e => e.date == s.date)).length ≤ 1) ∧
    (∀ (h : List HistEntry) (s : HistEntry), (h.map HistEntry.date).Nodup →
      ((mergeHistory h s).map HistEntry.date).Nodup) ∧
    (∀ (h : List HistEntry) (s : HistEntry), (h.map HistEntry.date).Nodup →
      h.length ≤ 7 → s.date ∈ h.map HistEntry.date →
      (mergeHistory h s).length = h.length) ∧
    (∀ s1 s2 s3 s4 s5 s6 s7 s8 : HistEntry,
      [s1.date, s2.date, s3.date, s4.date, s5.date, s6.date, s7.date, s8.date].Nodup →
      List.foldl mergeHistory [] [s1, s2, s3, s4, s5, s6, s7, s8] =
        [s8, s7, s6, s5, s4, s3, s2]) := by
  refine ⟨fun h s => rfl, ?_, ?_, ?_, ?_, ?_⟩
  · intro h s
    unfold mergeHistory
    exact List.length_take_le _ _
  · intro h s
    have hsub : List.Sublist ((mergeHistory h s).filter (fun e => e.date == s.date))
        ((s :: h.filter (fun e => e.date != s.date)).filter (fun e => e.date == s.date)) :=
      List.Sublist.filter _ (List.take_sublist _ _)
    have hnil : (h.filter (fun e => e.date != s.date)).filter
        (fun e => e.date == s.date) = [] := by
      rw [List.filter_eq_nil_iff]
      intro a ha
      rw [List.mem_filter] at ha
      simp only [beq_iff_eq]
      exact bne_iff_ne.mp ha.2
    have hcons : (s :: h.filter (fun e => e.date != s.date)).filter
        (fun e => e.date == s.date) = [s] := by
      rw [List.filter_cons]
      simp only [beq_self_eq_true, if_true, hnil]
    have := hsub.length_le
    rw [hcons] at this
    exact this
  · intro h s hnd
    unfold mergeHistory
    apply List.Nodup.sublist ((List.take_sublist _ _).map HistEntry.date)
    rw [List.map_cons]
    apply List.nodup_cons.mpr
    constructor
    · intro hmem
      rw [List.mem_map] at hmem
      obtain ⟨x, hx, hxd⟩ := hmem
      rw [List.mem_filter] at hx
      exact bne_iff_ne.mp hx.2 hxd
    · exact List.Nodup.sublist ((List.filter_sublist _).map HistEntry.date) hnd
  · intro h s hnd hlen hmem
    unfold mergeHistory
    rw [List.length_take, List.length_cons, filter_ne_length_of_mem hnd hmem]
    have hpos : 1 ≤ h.length := by
      rcases h with _ | ⟨x, xs⟩
      · simp at hmem
      · simp
    omega
  · intro s1 s2 s3 s4 s5 s6 s7 s8 hnd
    simp only [List.nodup_cons, List.mem_cons, List.mem_singleton, List.not_mem_nil,
      or_false, not_or, List.nodup_nil, not_false_eq_true, and_true] at hnd
    obtain ⟨⟨h12, h13, h14, h15, h16, h17, h18⟩, ⟨h23, h24, h25, h26, h27, h28⟩,
      ⟨h34, h35, h36, h37, h38⟩, ⟨h45, h46, h47, h48⟩, ⟨h56, h57, h58⟩,
      ⟨h67, h68⟩, h78⟩ := hnd
    have m1 : mergeHistory [] s1 = [s1] := rfl
    have m2 : mergeHistory [s1] s2 = [s2, s1] :=
      (mergeHistory_fresh (by
        intro e he
        simp only [List.mem_singleton] at he
        subst he; exact h12)).trans rfl
    have m3 : mergeHistory [s2, s1] s3 = [s3, s2, s1] :=
      (mergeHistory_fresh (by
        intro e he
        simp only [List.mem_cons, List.not_mem_nil, or_false] at he
        rcases he with rfl | rfl
        · exact h23
        · exact h13)).trans rfl
    have m4 : mergeHistory [s3, s2, s1] s4 = [s4, s3, s2, s1] :=
      (mergeHistory_fresh (by
        intro e he
        simp only [List.mem_cons, List.not_mem_nil, or_false] at he
        rcases he with rfl | rfl | rfl
        · exact h34
        · exact h24
        · exact h14)).trans rfl
    have m5 : mergeHistory [s4, s3, s2, s1] s5 = [s5, s4, s3, s2, s1] :=
      (mergeHistory_fresh (by
        intro e he
        simp only [List.mem_cons, List.not_mem_nil, or_false] at he
        rcases he with rfl | rfl | rfl | rfl
        · exact h45
        · exact h35
        · exact h25
        · exact h15)).trans rfl
    have m6 : mergeHistory [s5, s4, s3, s2, s1] s6 = [s6, s5, s4, s3, s2, s1] :=
      (mergeHistory_fresh (by
        intro e he
        simp only [List.mem_cons, List.not_mem_nil, or_false] at he
        rcases he with rfl | rfl | rfl | rfl | rfl
        · exact h56
        · exact h46
        · exact h36
        · exact h26
        · exact h16)).trans rfl
    have m7 : mergeHistory [s6, s5, s4, s3, s2, s1] s7 = [s7, s6, s5, s4, s3, s2, s1] :=
      (mergeHistory_fresh (by
        intro e he
        simp only [List.mem_cons, List.not_mem_nil, or_false] at he
        rcases he with rfl | rfl | rfl | rfl | rfl | rfl
        · exact h67
        · exact h57
        · exact h47
        · exact h37
        · exact h27
        · exact h17)).trans rfl
    have m8 : mergeHistory [s7, s6, s5, s4, s3, s2, s1] s8 = [s8, s7, s6, s5, s4, s3, s2] :=
      (mergeHistory_fresh (by
        intro e he
        simp only [List.mem_cons, List.not_mem_nil, or_false] at he
        rcases he with rfl | rfl | rfl | rfl | rfl | rfl | rfl
        · exact h78
        · exact h68
        · exact h58
        · exact h48
        · exact h38
        · exact h28
        · exact h18)).trans rfl
    simp only [List.foldl]
    rw [m1, m2, m3, m4, m5, m6, m7, m8]

/-- Witness for C1: a same-date re-merge keeping length 1, and the
8-snapshot eviction scenario, at concrete entries. -/
theorem mergeHistory_c1_witness :
    ((mergeHistory [⟨"20240108", []⟩] ⟨"20240108", []⟩).map HistEntry.date).Nodup ∧
    (mergeHistory [⟨"20240108", []⟩] ⟨"20240108", []⟩).length = 1 ∧
    List.foldl mergeHistory []
      [⟨"20240101", []⟩, ⟨"20240102", []⟩, ⟨"20240103", []⟩, ⟨"20240104", []⟩,
       ⟨"20240105", []⟩, ⟨"20240106", []⟩, ⟨"20240107", []⟩, ⟨"20240108", []⟩] =
      [⟨"20240108", []⟩, ⟨"20240107", []⟩, ⟨"20240106", []⟩, ⟨"20240105", []⟩,
       ⟨"20240104", []⟩, ⟨"20240103", []⟩, ⟨"20240102", []⟩] :=
  ⟨mergeHistory_c1.2.2.2.1 [⟨"20240108", []⟩] ⟨"20240108", []⟩ (by decide),
   mergeHistory_c1.2.2.2.2.1 [⟨"20240108", []⟩] ⟨"20240108", []⟩
     (by decide) (by decide) (by decide),
   mergeHistory_c1.2.2.2.2.2 ⟨"20240101", []⟩ ⟨"20240102", []⟩ ⟨"20240103", []⟩
     ⟨"20240104", []⟩ ⟨"20240105", []⟩ ⟨"20240106", []⟩ ⟨"20240107", []⟩
     ⟨"20240108", []⟩ (by decide)⟩

lemma lookup_append_of_none {l : List (String × Tbl.TblData)} {c : String}
    {v : Tbl.TblData} (h : l.lookup c = none) : (l ++ [(c, v)]).lookup c = some v := by
  induction l with
  | nil => simp [List.lookup]
  | cons kv rest ih =>
    obtain ⟨k, w⟩ := kv
    rw [List.cons_append]
    simp only [List.lookup] at h ⊢
    cases hck : (c == k) with
    | true => rw [hck] at h; cases h
    | false => rw [hck] at h; exact ih h

lemma rowStep_inert {r : List String} (hn : Tbl.findName r = none)
    (hl : Tbl.hasLabel r = false) (st : Tbl.ScanState) : Tbl.rowStep st r = st := by
  by_cases he : r.isEmpty
  · simp [Tbl.rowStep, he]
  · cases st
    simp [Tbl.rowStep, he, hn, hl]

lemma scan_mid : ∀ (rows : List (List String)) (st : Tbl.ScanState),
    (∀ r ∈ rows, Tbl.findName r = none ∧ Tbl.hasLabel r = false) →
    rows.foldl Tbl.rowStep st = st := by
  intro rows
  induction rows with
  | nil => intro st _; rfl
  | cons r rest ih =>
    intro st hall
    have h := hall r (by simp)
    rw [show (r :: rest).foldl Tbl.rowStep st = rest.foldl Tbl.rowStep (Tbl.rowStep st r)
      from rfl]
    rw [rowStep_inert h.1 h.2 st]
    exact ih st (fun x hx => hall x (by simp [hx]))

lemma rowStep_name {row : List String} {c : String} (hn : Tbl.findName row = some c)
    (hl : Tbl.hasLabel row = false) (st : Tbl.ScanState) :
    Tbl.rowStep st row = ⟨some c, st.found⟩ := by
  have hne : row.isEmpty = false := by
    cases row with
    | nil => cases hn
    | cons a as => rfl
  simp [Tbl.rowStep, hne, hn, hl]

lemma rowStep_agg {row : List String} {c : String} (st : Tbl.ScanState)
    (hcur : st.current = some c) (hn : Tbl.findName row = none)
    (hl : Tbl.hasLabel row = true) (hw : Tbl.wantList.contains c = true)
    (hf : st.found.lookup c = none) (hlen : ¬ row.length < 10) :
    Tbl.rowStep st row = ⟨some c, st.found ++
      [(c, .ok
        ⟨Tbl.first_int (row.getD 1 ""), Tbl.first_int (row.getD 5 ""),
         Tbl.first_int (row.getD 1 "") - Tbl.first_int (row.getD 5 "")⟩
        ⟨Tbl.first_int (row.getD 3 ""), Tbl.first_int (row.getD 7 ""),
         Tbl.first_int (row.getD 3 "") - Tbl.first_int (row.getD 7 "")⟩
        (Tbl.first_int (row.getD 9 "")))]⟩ := by
  have hne : row.isEmpty = false := by
    cases row with
    | nil => cases hl
    | cons a as => rfl
  have hwm : c ∈ Tbl.wantList := by simpa using hw
  simp [Tbl.rowStep, hne, hn, hl, hcur, hw, hwm, hf, hlen]

/-- C9: the grouped-table locator.  Whenever a contract-name row precedes
the row carrying the aggregate label (with only inert rows in between —
the name cell is merged downward, so the following rows announce no new
name), the locator remembers the most recently seen name and records the
aggregate row's parsed values under that contract's name. -/
theorem grouped_locator_c9
    (st : Tbl.ScanState) (nameRow : List String) (mid : List (List String))
    (aggRow : List String) (c : String) :
    Tbl.findName nameRow = some c →
    Tbl.hasLabel nameRow = false →
    (∀ r ∈ mid, Tbl.findName r = none ∧ Tbl.hasLabel r = false) →
    Tbl.findName aggRow = none →
    Tbl.hasLabel aggRow = true →
    Tbl.wantList.contains c = true →
    st.found.lookup c = none →
    ¬ aggRow.length < 10 →
    ((nameRow :: (mid ++ [aggRow])).foldl Tbl.rowStep st).found.lookup c =
      some (.ok
        ⟨Tbl.first_int (aggRow.getD 1 ""), Tbl.first_int (aggRow.getD 5 ""),
         Tbl.first_int (aggRow.getD 1 "") - Tbl.first_int (aggRow.getD 5 "")⟩
        ⟨Tbl.first_int (aggRow.getD 3 ""), Tbl.first_int (aggRow.getD 7 ""),
         Tbl.first_int (aggRow.getD 3 "") - Tbl.first_int (aggRow.getD 7 "")⟩
        (Tbl.first_int (aggRow.getD 9 ""))) := by
  intro hn hnl hmid han hal hw hf hlen
  rw [show (nameRow :: (mid ++ [aggRow])).foldl Tbl.rowStep st =
      (mid ++ [aggRow]).foldl Tbl.rowStep (Tbl.rowStep st nameRow) from rfl]
  rw [rowStep_name hn hnl st]
  rw [List.foldl_append]
  rw [scan_mid mid _ hmid]
  rw [show [aggRow].foldl Tbl.rowStep (⟨some c, st.found⟩ : Tbl.ScanState) =
      Tbl.rowStep ⟨some c, st.found⟩ aggRow from rfl]
  rw [rowStep_agg (⟨some c, st.found⟩ : Tbl.ScanState) rfl han hal hw hf hlen]
  exact lookup_append_of_none hf

/-- Witness for C9 at a concrete grouped table: the name row announces
台積電期貨, an inert row intervenes, the aggregate row follows. -/
theorem grouped_locator_c9_witness :
    (([["台積電期貨", "x"]] ++ ([["--"]] ++
        [["所有契約", "1", "a", "2", "b", "3", "c", "4", "d", "5"]])).foldl
      Tbl.rowStep ⟨none, []⟩).found.lookup "台積電期貨" =
      some (.ok ⟨1, 3, -2⟩ ⟨2, 4, -2⟩ 5) :=
  grouped_locator_c9 ⟨none, []⟩ ["台積電期貨", "x"] [["--"]]
    ["所有契約", "1", "a", "2", "b", "3", "c", "4", "d", "5"] "台積電期貨"
    (by decide) (by decide) (by decide) (by decide) (by decide) (by decide)
    (by decide) (by decide)
